import Mathlib

/-!
Verification of the Parameter Resolution Engine of the GCS digital-twin
repository.

The engine's reference implementation is the `resolve_parameter` pseudocode
in `GCS_Digital_Twin_Master_Plan.md` (section 8.1): an ordered source chain
per parameter is walked entry by entry, the first succeeding entry produces
the result together with a provenance/quality tag, and an exhausted chain
yields a `BAD` result.  The consumer-visible quality tags are the five
badges of section 8.2 and of the UI's `LiveDataResponse`
(`LIVE`/`CALCULATED`/`MANUAL`/`DEFAULT`/`BAD`).

Parts of the engine are only declared, not implemented, in the repository
(the live-value validity gate `is_valid`, the formula evaluator
`calculations.compute`, and the configuration loader): those are modelled
from the specification, and each such definition says so in its
doc comment.
-/

namespace GCS

/-- The five consumer-visible quality/provenance tags
(`LiveDataResponse.sources` in the API client; badge table 8.2 of the
master plan). -/
inductive Quality
  | LIVE
  | CALCULATED
  | MANUAL
  | DEFAULT
  | BAD
deriving DecidableEq, Repr

/-- The restricted formula expression language: arithmetic, a natural
logarithm, `min`/`max`/`abs`, and bare identifiers naming other
parameters. -/
inductive Expr
  | num (q : Rat)
  | ident (name : String)
  | add (a b : Expr)
  | sub (a b : Expr)
  | mul (a b : Expr)
  | div (a b : Expr)
  | ln (a : Expr)
  | minE (a b : Expr)
  | maxE (a b : Expr)
  | absE (a : Expr)
deriving DecidableEq, Repr

/-- One entry of a parameter's source chain (`SourceSpec`): the four
source kinds of the fallback design (`modbus`/`calculated`/`manual`/
`default` in the pseudocode's `source.type`). -/
inductive SourceSpec
  | live (channel : String) (lo hi : Option Rat) (maxStaleness : Nat)
  | calculated (formula : Expr)
  | manual (value : Rat)
  | default (value : Rat)
deriving DecidableEq, Repr

/-- A resolved parameter: value (absent on `BAD`), quality tag, and the
index of the chain entry that produced it (its source detail; `none` when
the chain was exhausted). -/
structure ParameterResult where
  value : Option Rat
  quality : Quality
  sourceIdx : Option Nat
deriving DecidableEq, Repr

/-- One telemetry sample: raw value plus the time it was sampled. -/
structure Sample where
  value : Rat
  sampledAt : Nat
deriving DecidableEq, Repr

/-- The telemetry snapshot: channel name to sample, absent channels give
`none`. -/
def Telemetry : Type := String → Option Sample

/-- Modelled from the spec: the range part of the live-value gate
(`is_valid(value, source.range)` is only declared in the pseudocode);
each bound is checked only when configured. -/
def inRange (lo hi : Option Rat) (v : Rat) : Bool :=
  (match lo with
   | none => true
   | some l => decide (l ≤ v))
  &&
  (match hi with
   | none => true
   | some h => decide (v ≤ h))

/-- Evaluate a formula against an environment of dependency values.
Division by zero and logarithm of a non-positive argument are domain
errors and give `none`; an unbound identifier gives `none`.  The numeric
logarithm itself is an opaque collaborator, passed in as `lnF` and only
consulted on the valid (positive) domain. -/
def evalExpr (lnF : Rat → Rat) (env : String → Option Rat) : Expr → Option Rat
  | .num q => some q
  | .ident n => env n
  | .add a b =>
    match evalExpr lnF env a, evalExpr lnF env b with
    | some x, some y => some (x + y)
    | _, _ => none
  | .sub a b =>
    match evalExpr lnF env a, evalExpr lnF env b with
    | some x, some y => some (x - y)
    | _, _ => none
  | .mul a b =>
    match evalExpr lnF env a, evalExpr lnF env b with
    | some x, some y => some (x * y)
    | _, _ => none
  | .div a b =>
    match evalExpr lnF env a, evalExpr lnF env b with
    | some x, some y => if y = 0 then none else some (x / y)
    | _, _ => none
  | .ln a =>
    match evalExpr lnF env a with
    | some x => if x ≤ 0 then none else some (lnF x)
    | none => none
  | .minE a b =>
    match evalExpr lnF env a, evalExpr lnF env b with
    | some x, some y => some (min x y)
    | _, _ => none
  | .maxE a b =>
    match evalExpr lnF env a, evalExpr lnF env b with
    | some x, some y => some (max x y)
    | _, _ => none
  | .absE a =>
    match evalExpr lnF env a with
    | some x => some |x|
    | none => none

/-- The dependency environment a calculated formula sees: the value a
parameter has already resolved to in this tick, with missing and `BAD`
parameters yielding `none` (spec 4.3: an identifier resolving to a `BAD`
parameter is an evaluation failure). -/
def depValue (resolved : List (String × ParameterResult)) (n : String) : Option Rat :=
  match resolved.lookup n with
  | none => none
  | some r =>
    match r.quality with
    | .BAD => none
    | _ => r.value

/-- Evaluate one chain entry for one parameter and one tick; `none` means
the entry fails and the chain falls through.  The structure follows the
`resolve_parameter` pseudocode branch by branch; the staleness check of
the live gate and the resolved-dependency semantics of
`calculations.compute` are modelled from the spec (4.2 steps 2-3), since
those collaborators are only declared in the repository. -/
def evalEntry (lnF : Rat → Rat) (snap : Telemetry) (now : Nat)
    (resolved : List (String × ParameterResult)) :
    SourceSpec → Option (Rat × Quality)
  | .live channel lo hi maxStaleness =>
    match snap channel with
    | none => none
    | some s =>
      if now - s.sampledAt > maxStaleness then none
      else if inRange lo hi s.value then some (s.value, .LIVE)
      else none
  | .calculated f =>
    match evalExpr lnF (depValue resolved) f with
    | some v => some (v, .CALCULATED)
    | none => none
  | .manual v => some (v, .MANUAL)
  | .default v => some (v, .DEFAULT)

/-- Walk the remainder of a source chain, `i` being the index of its head
within the full chain; the first succeeding entry short-circuits, an
exhausted chain gives the absent-value `BAD` result. -/
def resolveChainFrom (lnF : Rat → Rat) (snap : Telemetry) (now : Nat)
    (resolved : List (String × ParameterResult)) :
    Nat → List SourceSpec → ParameterResult
  | _, [] => ⟨none, .BAD, none⟩
  | i, s :: rest =>
    match evalEntry lnF snap now resolved s with
    | some (v, q) => ⟨some v, q, some i⟩
    | none => resolveChainFrom lnF snap now resolved (i + 1) rest

/-- `resolve_parameter`: resolve one parameter's source chain for one
tick (pseudocode of master-plan section 8.1). -/
def resolve_parameter (lnF : Rat → Rat) (snap : Telemetry) (now : Nat)
    (resolved : List (String × ParameterResult)) (chain : List SourceSpec) :
    ParameterResult :=
  resolveChainFrom lnF snap now resolved 0 chain

/-- One tick over a generation given in dependency (topological) order:
each parameter is resolved against the results already produced in this
same tick, and the finished result list is the tick's resolved
snapshot. -/
def resolveTickGo (lnF : Rat → Rat) (snap : Telemetry) (now : Nat) :
    List (String × ParameterResult) → List (String × List SourceSpec) →
    List (String × ParameterResult)
  | resolved, [] => resolved
  | resolved, (n, chain) :: rest =>
    resolveTickGo lnF snap now
      (resolved ++ [(n, resolve_parameter lnF snap now resolved chain)]) rest

/-- Resolve every parameter of a generation for one tick. -/
def resolveTick (lnF : Rat → Rat) (snap : Telemetry) (now : Nat)
    (gen : List (String × List SourceSpec)) : List (String × ParameterResult) :=
  resolveTickGo lnF snap now [] gen

/-! ### Configuration loading, cycle detection and chain construction

Modelled from the spec: the configuration loader (`Load`, spec 4.1/4.3)
and the per-parameter chain construction (spec 3/6) belong to the backend
service, which is absent from the repository; only the configuration UI
(register map, calibration dialog) and the design document describe them. -/

/-- A parameter definition: name and source chain (`ParameterDef`). -/
structure ParameterDef where
  name : String
  chain : List SourceSpec
deriving DecidableEq, Repr

/-- The parameter names a formula references. -/
def refsOfExpr : Expr → List String
  | .num _ => []
  | .ident n => [n]
  | .add a b | .sub a b | .mul a b | .div a b | .minE a b | .maxE a b =>
    refsOfExpr a ++ refsOfExpr b
  | .ln a | .absE a => refsOfExpr a

/-- The references contributed by one chain entry: only calculated
entries reference other parameters. -/
def refsOfEntry : SourceSpec → List String
  | .calculated f => refsOfExpr f
  | _ => []

/-- All parameter names a source chain's calculated formulas reference. -/
def refsOfChain (c : List SourceSpec) : List String :=
  (c.map refsOfEntry).flatten

/-- Modelled from the spec: the `ConfigurationError` taxonomy of `Load`
(unknown reference, cycle), spec 4.1 and 7. -/
inductive ConfigurationError
  | unknownReference (param ref : String)
  | cycle (params : List String)
deriving DecidableEq, Repr

/-- First definition whose chain references a name absent from the
registry, together with the offending reference. -/
def firstUnknown (names : List String) : List ParameterDef → Option (String × String)
  | [] => none
  | d :: rest =>
    match (refsOfChain d.chain).find? (fun r => !(names.contains r)) with
    | some r => some (d.name, r)
    | none => firstUnknown names rest

/-- Pick the first pending definition all of whose references are already
emitted (`done`), returning it and the remaining pending list. -/
def pickReady (done : List String) : List ParameterDef →
    Option (ParameterDef × List ParameterDef)
  | [] => none
  | d :: rest =>
    if (refsOfChain d.chain).all (fun r => done.contains r) then some (d, rest)
    else
      match pickReady done rest with
      | some (p, rest2) => some (p, d :: rest2)
      | none => none

/-- Kahn-style topological ordering with fuel: repeatedly emit a ready
definition; a non-empty pending set with no ready definition is a
dependency cycle (`none`). -/
def topoLoop (fuel : Nat) (done : List String) (pending : List ParameterDef) :
    Option (List ParameterDef) :=
  match fuel with
  | 0 =>
    match pending with
    | [] => some []
    | _ :: _ => none
  | fuel2 + 1 =>
    match pending with
    | [] => some []
    | _ :: _ =>
      match pickReady done pending with
      | none => none
      | some (d, rest) =>
        match topoLoop fuel2 (d.name :: done) rest with
        | none => none
        | some g => some (d :: g)

/-- Modelled from the spec (4.1, 4.3): `Load` validates that every
calculated formula references only registry names and that the reference
graph is acyclic; it returns the generation in topological evaluation
order, or a `ConfigurationError`. -/
def Load (defs : List ParameterDef) : Except ConfigurationError (List ParameterDef) :=
  let names := defs.map (fun d => d.name)
  match firstUnknown names defs with
  | some (p, r) => .error (.unknownReference p r)
  | none =>
    match topoLoop defs.length [] defs with
    | some g => .ok g
    | none => .error (.cycle names)

/-- Modelled from the spec (4.1): atomic swap-or-reject — a successful
`Load` replaces the active generation, a failed one leaves it
unchanged and reports the error. -/
def loadIntoRegistry (active : List ParameterDef) (defs : List ParameterDef) :
    List ParameterDef × Option ConfigurationError :=
  match Load defs with
  | .ok g => (g, none)
  | .error e => (active, some e)

/-- `g` is in topological evaluation order, taking the names in `done` as
already available: every definition's references name only parameters
emitted earlier. -/
def isTopoOrderFrom (done : List String) : List ParameterDef → Bool
  | [] => true
  | d :: rest =>
    (refsOfChain d.chain).all (fun r => done.contains r)
    && isTopoOrderFrom (d.name :: done) rest

/-- `g` is a topological evaluation order: each parameter's references
appear strictly earlier in the list. -/
def isTopoOrder (g : List ParameterDef) : Bool :=
  isTopoOrderFrom [] g

/-- Manual value mode of a register/parameter (`valueMode` toggle in the
calibration dialog and register map). -/
inductive ValueMode
  | LIVE
  | MANUAL
deriving DecidableEq, Repr

/-- Static (per-generation) part of a parameter's configuration: optional
live channel with validity gate, optional calculated formula. -/
structure ParamDefStatic where
  name : String
  liveChannel : Option (String × Option Rat × Option Rat × Nat)
  calcFormula : Option Expr
deriving DecidableEq, Repr

/-- Full per-parameter configuration once the manual override store and
default table have been consulted. -/
structure ParamConfig where
  name : String
  liveChannel : Option (String × Option Rat × Option Rat × Nat)
  calcFormula : Option Expr
  valueMode : ValueMode
  manualValue : Option Rat
  defaultValue : Option Rat
deriving DecidableEq, Repr

/-- Modelled from the spec (3, 6): build a parameter's source chain from
its configuration.  A `ManualSource` is present only when the
parameter's `valueMode` is `MANUAL` (and a manual value is stored); a
`DefaultSource`, when configured, is the final entry. -/
def buildChain (c : ParamConfig) : List SourceSpec :=
  (match c.liveChannel with
   | some (ch, lo, hi, mx) => [.live ch lo hi mx]
   | none => [])
  ++ (match c.calcFormula with
      | some f => [.calculated f]
      | none => [])
  ++ (match c.valueMode, c.manualValue with
      | .MANUAL, some v => [.manual v]
      | _, _ => [])
  ++ (match c.defaultValue with
      | some v => [.default v]
      | none => [])

/-- The manual override store: per parameter name, the enable flag
(`valueMode`) and the user-entered static value. -/
def ManualStore : Type := String → ValueMode × Option Rat

/-- The default table: factory fallback constant per parameter name. -/
def DefaultTable : Type := String → Option Rat

/-- Combine a static definition with the stores into a full
configuration. -/
def mkConfig (store : ManualStore) (table : DefaultTable) (d : ParamDefStatic) :
    ParamConfig :=
  ⟨d.name, d.liveChannel, d.calcFormula, (store d.name).1, (store d.name).2,
    table d.name⟩

/-- One full tick: given the telemetry snapshot, the manual override
store, the default table and the parameter generation (in dependency
order), build every chain and resolve every parameter. -/
def resolveTickFull (lnF : Rat → Rat) (snap : Telemetry) (now : Nat)
    (store : ManualStore) (table : DefaultTable) (defs : List ParamDefStatic) :
    List (String × ParameterResult) :=
  resolveTick lnF snap now
    (defs.map (fun d => ((mkConfig store table d).name,
      buildChain (mkConfig store table d))))

/-- The cyclic example generation of the spec: `A = B + 1`. -/
def defA : ParameterDef :=
  ⟨"A", [.calculated (.add (.ident "B") (.num 1))]⟩

/-- The cyclic example generation of the spec: `B = A * 2`. -/
def defB : ParameterDef :=
  ⟨"B", [.calculated (.mul (.ident "A") (.num 2))]⟩

/-- An acyclic two-parameter generation: `A` falls back to a default,
`B = A * 2` is calculated. -/
def goodDefs : List ParameterDef :=
  [⟨"A", [.default 10]⟩, ⟨"B", [.calculated (.mul (.ident "A") (.num 2))]⟩]

/-- The reference graph has an edge from parameter `a` to parameter `b`:
some definition named `a` references `b` in a calculated formula
(spec 4.3's directed graph). -/
def hasEdge (defs : List ParameterDef) (a b : String) : Bool :=
  defs.any (fun d => d.name == a && (refsOfChain d.chain).contains b)

/-- An edge path `a → x₁ → ... → xₖ → b` through the reference graph. -/
def pathEdges (defs : List ParameterDef) : String → List String → String → Bool
  | a, [], b => hasEdge defs a b
  | a, x :: xs, b => hasEdge defs a x && pathEdges defs x xs b

/-- A cycle in the reference graph: a nonempty edge path from `a` back
to `a` through the intermediate nodes `mid`. -/
def isCycle (defs : List ParameterDef) (a : String) (mid : List String) : Bool :=
  pathEdges defs a mid a

end GCS

namespace GCS.UI

/-! ### UI code under verification

Shallow embedding of two frontend functions: `applyCalibrationDialog` of
the Modbus mapping page and `getQuality` of the Dashboard.  JavaScript
numbers entered through text fields are modelled by their parse outcome
(`FieldStr`), and `Number(...)` results that may be `NaN` by `JSNum`. -/

/-- A JavaScript number as stored on a register: a finite value or
`NaN`. -/
inductive JSNum
  | num (q : Rat)
  | nan
deriving DecidableEq, Repr

/-- A text field's content, by parse outcome: empty after trimming,
numeric, or non-numeric text. -/
inductive FieldStr
  | empty
  | numeric (q : Rat)
  | nonNumeric
deriving DecidableEq, Repr

/-- JavaScript `Number(s)`: the empty string parses to `0`, non-numeric
text to `NaN`. -/
def numberOf : FieldStr → JSNum
  | .empty => .num 0
  | .numeric q => .num q
  | .nonNumeric => .nan

/-- JavaScript `Number.isFinite` on a parsed number. -/
def isFiniteJS : JSNum → Bool
  | .num _ => true
  | .nan => false

/-- A register row of the Modbus mapping page (the fields
`applyCalibrationDialog` reads or writes). -/
structure Register where
  name : String
  type? : Option String
  unit : String
  min? : Option JSNum
  max? : Option JSNum
  scale? : Option JSNum
  offset? : Option JSNum
  valueMode : GCS.ValueMode
  manualValue : Option JSNum
deriving DecidableEq, Repr

/-- The calibration dialog's draft state (text fields plus the
`valueMode` radio). -/
structure CalibrationDraft where
  unit : String
  min : FieldStr
  max : FieldStr
  scale : FieldStr
  offset : FieldStr
  valueMode : GCS.ValueMode
  manualValue : FieldStr
deriving DecidableEq, Repr

/-- The page state the dialog acts on. -/
structure PageState where
  registers : List Register
  calibrationIndex : Option Nat
  calibrationDraft : CalibrationDraft
deriving DecidableEq, Repr

/-- The update `applyCalibrationDialog` performs on the selected register:
unit, scale/offset (defaulting to 1/0 when non-finite), `valueMode`, a
`manualValue` kept only in `MANUAL` mode (and `null` when the field is
empty), and min/max only for analog registers. -/
def applyRegister (d : CalibrationDraft) (r : Register) : Register :=
  let regType := r.type?.getD "Analog"
  { r with
    unit := if d.unit = "none" then "" else d.unit
    scale? := some (if isFiniteJS (numberOf d.scale) then numberOf d.scale else .num 1)
    offset? := some (if isFiniteJS (numberOf d.offset) then numberOf d.offset else .num 0)
    valueMode := d.valueMode
    manualValue :=
      match d.valueMode with
      | .MANUAL =>
        match d.manualValue with
        | .empty => none
        | fs => some (numberOf fs)
      | .LIVE => none
    min? := if regType = "Analog" then
        (match d.min with
         | .empty => none
         | fs => some (numberOf fs))
      else r.min?
    max? := if regType = "Analog" then
        (match d.max with
         | .empty => none
         | fs => some (numberOf fs))
      else r.max? }

/-- `applyCalibrationDialog`: no-op without an open dialog; otherwise
update the selected register (if it exists) and close the dialog. -/
def applyCalibrationDialog (st : PageState) : PageState :=
  match st.calibrationIndex with
  | none => st
  | some i =>
    match st.registers.get? i with
    | none => { st with calibrationIndex := none }
    | some r =>
      { st with
        registers := st.registers.set i (applyRegister st.calibrationDraft r)
        calibrationIndex := none }

/-- The per-register invariant of the mapping page: a register in `LIVE`
mode stores no manual value. -/
def regInvariant (r : Register) : Prop :=
  r.valueMode = .LIVE → r.manualValue = none

/-- The Dashboard's alias table for source-map lookups
(`sourceAliases[param] || [param]`). -/
def aliasesFor (p : String) : List String :=
  if p = "engine_oil_press" then ["engine_oil_press", "engine_oil_pressure"]
  else if p = "comp_oil_press" then ["comp_oil_press", "comp_oil_pressure"]
  else [p]

/-- The Dashboard's alias-lookup loop: first key present in the sources
map wins, otherwise the badge defaults to `LIVE`. -/
def lookupSources (sources : String → Option GCS.Quality) : List String → GCS.Quality
  | [] => .LIVE
  | k :: rest =>
    match sources k with
    | some q => q
    | none => lookupSources sources rest

/-- `getQuality`: the Dashboard's quality-badge lookup for one parameter
name. -/
def getQuality (sources : String → Option GCS.Quality) (param : String) : GCS.Quality :=
  lookupSources sources (aliasesFor param)

end GCS.UI

namespace GCS

/-! ## Helper lemmas -/

/-- Failing chain entries are skipped: walking `pre ++ l` when every
entry of `pre` fails equals walking `l` with the index advanced past
`pre`. -/
theorem resolveChainFrom_append_fail (lnF : Rat → Rat) (snap : Telemetry)
    (now : Nat) (resolved : List (String × ParameterResult)) :
    ∀ (pre : List SourceSpec) (i : Nat) (l : List SourceSpec),
      (∀ e ∈ pre, evalEntry lnF snap now resolved e = none) →
      resolveChainFrom lnF snap now resolved i (pre ++ l)
        = resolveChainFrom lnF snap now resolved (i + pre.length) l := by
  intro pre
  induction pre with
  | nil => intro i l _; simp
  | cons s pre ih =>
    intro i l h
    have hs : evalEntry lnF snap now resolved s = none := h s (by simp)
    have hrest : ∀ e ∈ pre, evalEntry lnF snap now resolved e = none := by
      intro e he
      exact h e (by simp [he])
    simp only [List.cons_append, resolveChainFrom, hs, List.append_eq]
    rw [ih (i + 1) l hrest]
    congr 1
    simp only [List.length_cons]
    omega

/-- A successful live entry always carries the `LIVE` tag. -/
theorem evalEntry_live_quality (lnF : Rat → Rat) (snap : Telemetry) (now : Nat)
    (resolved : List (String × ParameterResult)) (ch : String)
    (lo hi : Option Rat) (mx : Nat) (v : Rat) (q : Quality) :
    evalEntry lnF snap now resolved (.live ch lo hi mx) = some (v, q) →
    q = Quality.LIVE := by
  intro h
  unfold evalEntry at h
  cases hc : snap ch with
  | none => simp [hc] at h
  | some s =>
    simp only [hc] at h
    by_cases h1 : now - s.sampledAt > mx
    · simp [h1] at h
    · simp only [if_neg h1] at h
      by_cases h2 : inRange lo hi s.value
      · simp only [if_pos h2] at h
        cases h
        rfl
      · simp [h2] at h

/-! ## Claims -/

/-- C1: the source chain is evaluated strictly in order and the first
succeeding entry determines the result: if the first `n` entries fail,
the result is exactly the evaluation of entry `n + 1` (later entries are
never consulted, as the tail of the chain is arbitrary); in particular,
for a chain `[LiveSource, c, m, d]`, if the live entry is valid the
result has quality `LIVE` regardless of the remaining entries. -/
theorem chain_strict_priority_first_success :
    (∀ (lnF : Rat → Rat) (snap : Telemetry) (now : Nat)
       (resolved : List (String × ParameterResult))
       (pre : List SourceSpec) (s : SourceSpec) (rest : List SourceSpec)
       (v : Rat) (q : Quality),
       (∀ e ∈ pre, evalEntry lnF snap now resolved e = none) →
       evalEntry lnF snap now resolved s = some (v, q) →
       resolve_parameter lnF snap now resolved (pre ++ s :: rest)
         = ⟨some v, q, some pre.length⟩)
    ∧
    (∀ (lnF : Rat → Rat) (snap : Telemetry) (now : Nat)
       (resolved : List (String × ParameterResult))
       (ch : String) (lo hi : Option Rat) (mx : Nat)
       (c m d : SourceSpec) (v : Rat) (q : Quality),
       evalEntry lnF snap now resolved (.live ch lo hi mx) = some (v, q) →
       (resolve_parameter lnF snap now resolved
          [.live ch lo hi mx, c, m, d]).quality = Quality.LIVE) := by
  have main : ∀ (lnF : Rat → Rat) (snap : Telemetry) (now : Nat)
      (resolved : List (String × ParameterResult))
      (pre : List SourceSpec) (s : SourceSpec) (rest : List SourceSpec)
      (v : Rat) (q : Quality),
      (∀ e ∈ pre, evalEntry lnF snap now resolved e = none) →
      evalEntry lnF snap now resolved s = some (v, q) →
      resolve_parameter lnF snap now resolved (pre ++ s :: rest)
        = ⟨some v, q, some pre.length⟩ := by
    intro lnF snap now resolved pre s rest v q hpre hs
    unfold resolve_parameter
    rw [resolveChainFrom_append_fail lnF snap now resolved pre 0 (s :: rest) hpre]
    simp [resolveChainFrom, hs]
  refine ⟨main, ?_⟩
  intro lnF snap now resolved ch lo hi mx c m d v q h
  have hq := evalEntry_live_quality lnF snap now resolved ch lo hi mx v q h
  subst hq
  have := main lnF snap now resolved [] (.live ch lo hi mx) [c, m, d] v .LIVE
    (by intro e he; cases he) h
  simp only [List.nil_append] at this
  rw [this]

/-- C1 witness: a failing live entry followed by a manual entry resolves
to the manual entry at index 1; a valid live entry heading a four-entry
chain gives quality `LIVE`. -/
theorem chain_strict_priority_first_success_witness :
    resolve_parameter (fun _ => 0) (fun _ => none) 0 []
        ([SourceSpec.live "reg1" none none 5] ++ SourceSpec.manual 5 :: [SourceSpec.default 7])
      = ⟨some 5, Quality.MANUAL, some 1⟩
    ∧ (resolve_parameter (fun _ => 0)
         (fun c => if c = "a" then some ⟨82, 0⟩ else none) 0 []
         [.live "a" none none 5, .calculated (.num 1), .manual 2, .default 3]).quality
        = Quality.LIVE :=
  ⟨chain_strict_priority_first_success.1 (fun _ => 0) (fun _ => none) 0 []
      [SourceSpec.live "reg1" none none 5] (SourceSpec.manual 5) [SourceSpec.default 7]
      5 Quality.MANUAL (by decide) (by decide),
   chain_strict_priority_first_success.2 (fun _ => 0)
      (fun c => if c = "a" then some ⟨82, 0⟩ else none) 0 []
      "a" none none 5 (.calculated (.num 1)) (.manual 2) (.default 3)
      82 Quality.LIVE (by decide)⟩

/-- C3: a live entry fails — falling through to the next source — when
the sample is older than `maxStaleness` (independent of its numeric
value), when the channel is absent from the snapshot, or when the value
falls outside the valid range. -/
theorem live_gate_staleness_absence_range :
    ∀ (lnF : Rat → Rat) (snap : Telemetry) (now : Nat)
      (resolved : List (String × ParameterResult))
      (ch : String) (lo hi : Option Rat) (mx : Nat),
      (∀ s : Sample, snap ch = some s → now - s.sampledAt > mx →
        evalEntry lnF snap now resolved (.live ch lo hi mx) = none)
      ∧ (snap ch = none →
        evalEntry lnF snap now resolved (.live ch lo hi mx) = none)
      ∧ (∀ s : Sample, snap ch = some s → inRange lo hi s.value = false →
        evalEntry lnF snap now resolved (.live ch lo hi mx) = none)
      ∧ (∀ (i : Nat) (rest : List SourceSpec),
        evalEntry lnF snap now resolved (.live ch lo hi mx) = none →
        resolveChainFrom lnF snap now resolved i (.live ch lo hi mx :: rest)
          = resolveChainFrom lnF snap now resolved (i + 1) rest) := by
  intro lnF snap now resolved ch lo hi mx
  refine ⟨?_, ?_, ?_, ?_⟩
  · intro s hs hstale
    simp [evalEntry, hs, hstale]
  · intro hs
    simp [evalEntry, hs]
  · intro s hs hrange
    simp [evalEntry, hs, hrange]
  · intro i rest h
    simp [resolveChainFrom, h]

/-- C3 witness: a sample aged 50 ticks against a staleness bound of 5
fails the live gate even though its value 100 is in range, and the chain
falls through to the default entry. -/
theorem live_gate_staleness_absence_range_witness :
    evalEntry (fun _ => 0) (fun _ => some ⟨100, 0⟩) 50 [] (.live "r" none none 5) = none
    ∧ resolveChainFrom (fun _ => 0) (fun _ => some ⟨100, 0⟩) 50 [] 0
        [SourceSpec.live "r" none none 5, SourceSpec.default 7]
      = resolveChainFrom (fun _ => 0) (fun _ => some ⟨100, 0⟩) 50 [] 1
        [SourceSpec.default 7] :=
  ⟨(live_gate_staleness_absence_range (fun _ => 0) (fun _ => some ⟨100, 0⟩) 50 []
      "r" none none 5).1 ⟨100, 0⟩ (by decide) (by decide),
   (live_gate_staleness_absence_range (fun _ => 0) (fun _ => some ⟨100, 0⟩) 50 []
      "r" none none 5).2.2.2 0 [SourceSpec.default 7]
      ((live_gate_staleness_absence_range (fun _ => 0) (fun _ => some ⟨100, 0⟩) 50 []
        "r" none none 5).1 ⟨100, 0⟩ (by decide) (by decide))⟩

/-- C4: when every entry of a parameter's chain fails (including the
chain without any default entry, and the empty chain), the resolver
returns the first-class result with absent value and quality `BAD` — a
value of the ordinary result type, not an error. -/
theorem exhausted_chain_yields_bad :
    ∀ (lnF : Rat → Rat) (snap : Telemetry) (now : Nat)
      (resolved : List (String × ParameterResult)) (chain : List SourceSpec),
      (∀ e ∈ chain, evalEntry lnF snap now resolved e = none) →
      resolve_parameter lnF snap now resolved chain
        = ⟨none, Quality.BAD, none⟩ := by
  intro lnF snap now resolved chain h
  unfold resolve_parameter
  have := resolveChainFrom_append_fail lnF snap now resolved chain 0 [] h
  simp only [List.append_nil] at this
  rw [this]
  rfl

/-- C4 witness: a chain consisting of a single live entry whose channel
is absent resolves to the absent-value `BAD` result. -/
theorem exhausted_chain_yields_bad_witness :
    resolve_parameter (fun _ => 0) (fun _ => none) 0 []
        [SourceSpec.live "reg1" none none 5]
      = ⟨none, Quality.BAD, none⟩ :=
  exhausted_chain_yields_bad (fun _ => 0) (fun _ => none) 0 []
    [SourceSpec.live "reg1" none none 5] (by decide)

/-- C5: a calculated entry whose formula evaluation fails — by division
by zero, by a logarithm domain error, or because a dependency is missing
or `BAD` — only makes that chain entry fail and fall through to the next
entry; no exception reaches the resolver's caller (the resolver is a
total function into `ParameterResult`). -/
theorem calc_failure_falls_through :
    (∀ (lnF : Rat → Rat) (snap : Telemetry) (now : Nat)
       (resolved : List (String × ParameterResult)) (f : Expr)
       (i : Nat) (rest : List SourceSpec),
       evalExpr lnF (depValue resolved) f = none →
       resolveChainFrom lnF snap now resolved i (.calculated f :: rest)
         = resolveChainFrom lnF snap now resolved (i + 1) rest)
    ∧ (∀ (lnF : Rat → Rat) (env : String → Option Rat) (a b : Expr) (x : Rat),
       evalExpr lnF env a = some x → evalExpr lnF env b = some 0 →
       evalExpr lnF env (.div a b) = none)
    ∧ (∀ (lnF : Rat → Rat) (env : String → Option Rat) (a : Expr) (x : Rat),
       evalExpr lnF env a = some x → x ≤ 0 →
       evalExpr lnF env (.ln a) = none)
    ∧ (∀ (resolved : List (String × ParameterResult)) (n : String)
       (r : ParameterResult),
       resolved.lookup n = some r → r.quality = Quality.BAD →
       depValue resolved n = none) := by
  refine ⟨?_, ?_, ?_, ?_⟩
  · intro lnF snap now resolved f i rest h
    simp [resolveChainFrom, evalEntry, h]
  · intro lnF env a b x ha hb
    simp [evalExpr, ha, hb]
  · intro lnF env a x ha hx
    simp [evalExpr, ha, hx]
  · intro resolved n r h hq
    simp [depValue, h, hq]

/-- C5 witness: `1 / 0` evaluates to `none`, and a calculated entry with
that formula falls through to the following default entry. -/
theorem calc_failure_falls_through_witness :
    evalExpr (fun _ => 0) (fun _ => none) (.div (.num 1) (.num 0)) = none
    ∧ resolveChainFrom (fun _ => 0) (fun _ => none) 0 [] 0
        [SourceSpec.calculated (.div (.num 1) (.num 0)), SourceSpec.default 7]
      = resolveChainFrom (fun _ => 0) (fun _ => none) 0 [] 1 [SourceSpec.default 7] :=
  ⟨calc_failure_falls_through.2.1 (fun _ => 0) (fun _ => none)
      (.num 1) (.num 0) 1 (by decide) (by decide),
   calc_failure_falls_through.1 (fun _ => 0) (fun _ => none) 0 []
      (.div (.num 1) (.num 0)) 0 [SourceSpec.default 7] (by decide)⟩

/-- C2: a calculated parameter `B` with formula `A * 2` consumes `A`'s
already-resolved value for the same tick, whatever chain entry produced
it (post-fallback), and resolves with quality `CALCULATED`: whenever `A`
resolved to value `a` with a non-`BAD` quality, `B` resolves to `a * 2`
with quality `CALCULATED`. -/
theorem calc_uses_resolved_values :
    ∀ (lnF : Rat → Rat) (snap : Telemetry) (now : Nat) (A B : String)
      (chainA : List SourceSpec) (a : Rat) (q : Quality) (si : Option Nat),
      A ≠ B →
      resolve_parameter lnF snap now [] chainA = ⟨some a, q, si⟩ →
      q ≠ Quality.BAD →
      List.lookup B (resolveTick lnF snap now
          [(A, chainA), (B, [.calculated (.mul (.ident A) (.num 2))])])
        = some ⟨some (a * 2), Quality.CALCULATED, some 0⟩ := by
  intro lnF snap now A B chainA a q si hne hA hq
  have hdep : depValue [(A, (⟨some a, q, si⟩ : ParameterResult))] A = some a := by
    cases q <;> simp_all [depValue, List.lookup, beq_self_eq_true]
  have hB : resolve_parameter lnF snap now [(A, (⟨some a, q, si⟩ : ParameterResult))]
      [.calculated (.mul (.ident A) (.num 2))]
      = ⟨some (a * 2), Quality.CALCULATED, some 0⟩ := by
    simp [resolve_parameter, resolveChainFrom, evalEntry, evalExpr, hdep]
  have hBA : (B == A) = false := beq_eq_false_iff_ne.mpr (Ne.symm hne)
  simp only [resolveTick, resolveTickGo, List.nil_append, hA, List.lookup,
    List.cons_append, hBA, beq_self_eq_true]
  rw [hB]

/-- C2 witness: `A = [Live(reg1), Default(10)]` with `reg1` stale falls
back to `DEFAULT = 10`, and `B = A * 2` resolves to `20` with quality
`CALCULATED`, not `BAD`. -/
theorem calc_uses_resolved_values_witness :
    List.lookup "B" (resolveTick (fun _ => 0)
        (fun c => if c = "reg1" then some ⟨99, 0⟩ else none) 50
        [("A", [.live "reg1" none none 5, .default 10]),
         ("B", [.calculated (.mul (.ident "A") (.num 2))])])
      = some ⟨some 20, Quality.CALCULATED, some 0⟩ := by
  have h := calc_uses_resolved_values (fun _ => 0)
    (fun c => if c = "reg1" then some ⟨99, 0⟩ else none) 50 "A" "B"
    [.live "reg1" none none 5, .default 10] 10 Quality.DEFAULT (some 1)
    (by decide) (by decide) (by decide)
  have h20 : (10 : Rat) * 2 = 20 := by norm_num
  rw [h20] at h
  exact h

/-- C7: a tick is a deterministic pure function of its inputs — given an
identical telemetry snapshot, manual override store, default table and
parameter generation (and the same opaque logarithm collaborator), two
ticks produce identical resolved snapshots: every parameter gets the
same `ParameterResult` (value, quality and source detail). -/
theorem tick_deterministic :
    ∀ (lnF lnG : Rat → Rat) (snap snap2 : Telemetry) (now now2 : Nat)
      (store store2 : ManualStore) (table table2 : DefaultTable)
      (defs defs2 : List ParamDefStatic),
      lnF = lnG → snap = snap2 → now = now2 → store = store2 →
      table = table2 → defs = defs2 →
      ∀ n : String,
        List.lookup n (resolveTickFull lnF snap now store table defs)
          = List.lookup n (resolveTickFull lnG snap2 now2 store2 table2 defs2) := by
  intro lnF lnG snap snap2 now now2 store store2 table table2 defs defs2
  intro h1 h2 h3 h4 h5 h6 n
  subst h1
  subst h2
  subst h3
  subst h4
  subst h5
  subst h6
  rfl

/-- C7 witness: two ticks over the same concrete snapshot, override
store, default table and two-parameter generation agree on parameter
`"A"`. -/
theorem tick_deterministic_witness :
    List.lookup "A" (resolveTickFull (fun _ => 0)
        (fun c => if c = "reg1" then some ⟨82, 0⟩ else none) 1
        (fun _ => (GCS.ValueMode.LIVE, none)) (fun _ => some 75)
        [⟨"A", some ("reg1", none, none, 5), none⟩,
         ⟨"B", none, some (.mul (.ident "A") (.num 2))⟩])
      = List.lookup "A" (resolveTickFull (fun _ => 0)
        (fun c => if c = "reg1" then some ⟨82, 0⟩ else none) 1
        (fun _ => (GCS.ValueMode.LIVE, none)) (fun _ => some 75)
        [⟨"A", some ("reg1", none, none, 5), none⟩,
         ⟨"B", none, some (.mul (.ident "A") (.num 2))⟩]) :=
  tick_deterministic (fun _ => 0) (fun _ => 0)
    (fun c => if c = "reg1" then some ⟨82, 0⟩ else none)
    (fun c => if c = "reg1" then some ⟨82, 0⟩ else none) 1 1
    (fun _ => (GCS.ValueMode.LIVE, none)) (fun _ => (GCS.ValueMode.LIVE, none))
    (fun _ => some 75) (fun _ => some 75)
    [⟨"A", some ("reg1", none, none, 5), none⟩,
     ⟨"B", none, some (.mul (.ident "A") (.num 2))⟩]
    [⟨"A", some ("reg1", none, none, 5), none⟩,
     ⟨"B", none, some (.mul (.ident "A") (.num 2))⟩]
    rfl rfl rfl rfl rfl rfl "A"

/-- C8: a reached `ManualSource` entry (all earlier entries failed)
succeeds unconditionally — for any stored value — and yields quality
`MANUAL`, one of the five consumer-visible tags; and a `ManualSource`
appears in a built chain only when the parameter's `valueMode` is
`MANUAL`. -/
theorem manual_source_unconditional :
    (∀ (lnF : Rat → Rat) (snap : Telemetry) (now : Nat)
       (resolved : List (String × ParameterResult))
       (pre : List SourceSpec) (v : Rat) (rest : List SourceSpec),
       (∀ e ∈ pre, evalEntry lnF snap now resolved e = none) →
       resolve_parameter lnF snap now resolved (pre ++ .manual v :: rest)
         = ⟨some v, Quality.MANUAL, some pre.length⟩)
    ∧ (∀ q : Quality, q = .LIVE ∨ q = .CALCULATED ∨ q = .MANUAL
        ∨ q = .DEFAULT ∨ q = .BAD)
    ∧ (∀ (c : ParamConfig) (v : Rat),
       SourceSpec.manual v ∈ buildChain c → c.valueMode = ValueMode.MANUAL) := by
  refine ⟨?_, ?_, ?_⟩
  · intro lnF snap now resolved pre v rest hpre
    unfold resolve_parameter
    rw [resolveChainFrom_append_fail lnF snap now resolved pre 0
      (SourceSpec.manual v :: rest) hpre]
    simp [resolveChainFrom, evalEntry]
  · intro q
    cases q
    · exact Or.inl rfl
    · exact Or.inr (Or.inl rfl)
    · exact Or.inr (Or.inr (Or.inl rfl))
    · exact Or.inr (Or.inr (Or.inr (Or.inl rfl)))
    · exact Or.inr (Or.inr (Or.inr (Or.inr rfl)))
  · intro c v h
    obtain ⟨nm, lc, cf, vm, mv, dv⟩ := c
    cases lc <;> cases cf <;> cases vm <;> cases mv <;> cases dv <;>
      simp_all [buildChain]

/-- C8 witness: a manual entry reached after a failing live entry
resolves to `{value 80, quality MANUAL}` at index 1; and the chain built
for a `MANUAL`-mode configuration contains the manual entry, whose
presence certifies the mode. -/
theorem manual_source_unconditional_witness :
    resolve_parameter (fun _ => 0) (fun _ => none) 0 []
        ([SourceSpec.live "reg1" none none 5] ++ SourceSpec.manual 80 :: [])
      = ⟨some 80, Quality.MANUAL, some 1⟩
    ∧ (⟨"p", none, none, ValueMode.MANUAL, some 3, none⟩ : ParamConfig).valueMode
      = ValueMode.MANUAL :=
  ⟨manual_source_unconditional.1 (fun _ => 0) (fun _ => none) 0 []
      [SourceSpec.live "reg1" none none 5] 80 [] (by decide),
   manual_source_unconditional.2.2 ⟨"p", none, none, ValueMode.MANUAL, some 3, none⟩
      3 (by decide)⟩

/-- C9: applying the calibration dialog preserves the register invariant
that `manualValue` is `null` whenever `valueMode` is `LIVE`: the updated
register satisfies it unconditionally, every register of the page does
after the dialog is applied (given it held before), and in `MANUAL` mode
an empty manual-value field stores `null`. -/
theorem calibration_preserves_manual_invariant :
    (∀ (d : UI.CalibrationDraft) (r : UI.Register),
       UI.regInvariant (UI.applyRegister d r))
    ∧ (∀ st : UI.PageState,
       (∀ r ∈ st.registers, UI.regInvariant r) →
       ∀ r ∈ (UI.applyCalibrationDialog st).registers, UI.regInvariant r)
    ∧ (∀ (d : UI.CalibrationDraft) (r : UI.Register),
       d.valueMode = ValueMode.MANUAL → d.manualValue = UI.FieldStr.empty →
       (UI.applyRegister d r).manualValue = none) := by
  have happly : ∀ (d : UI.CalibrationDraft) (r : UI.Register),
      UI.regInvariant (UI.applyRegister d r) := by
    intro d r hLive
    simp only [UI.applyRegister] at hLive ⊢
    cases hd : d.valueMode
    · simp [hd]
    · rw [hd] at hLive
      exact absurd hLive (by simp)
  refine ⟨happly, ?_, ?_⟩
  · intro st hinv r hr
    unfold UI.applyCalibrationDialog at hr
    cases hidx : st.calibrationIndex with
    | none =>
      simp only [hidx] at hr
      exact hinv r hr
    | some i =>
      simp only [hidx] at hr
      cases hget : st.registers.get? i with
      | none =>
        simp only [hget] at hr
        exact hinv r hr
      | some r0 =>
        simp only [hget] at hr
        rcases List.mem_or_eq_of_mem_set hr with h | h
        · exact hinv r h
        · rw [h]
          exact happly st.calibrationDraft r0
  · intro d r hm he
    simp [UI.applyRegister, hm, he]

/-- C9 witness: on a page whose single register is in `LIVE` mode with
no manual value, applying a dialog draft that keeps `LIVE` mode leaves
every register satisfying the invariant; and in `MANUAL` mode with an
empty field the stored manual value is `null`. -/
theorem calibration_preserves_manual_invariant_witness :
    (∀ r ∈ (UI.applyCalibrationDialog
        ⟨[⟨"engine_rpm", none, "RPM", none, none, none, none,
            ValueMode.LIVE, none⟩], some 0,
          ⟨"RPM", .empty, .empty, .numeric 1, .numeric 0, ValueMode.LIVE,
            .empty⟩⟩).registers, UI.regInvariant r)
    ∧ (UI.applyRegister
        ⟨"RPM", .empty, .empty, .numeric 1, .numeric 0, ValueMode.MANUAL, .empty⟩
        ⟨"engine_rpm", none, "RPM", none, none, none, none,
          ValueMode.LIVE, none⟩).manualValue = none :=
  ⟨calibration_preserves_manual_invariant.2.1
      ⟨[⟨"engine_rpm", none, "RPM", none, none, none, none,
          ValueMode.LIVE, none⟩], some 0,
        ⟨"RPM", .empty, .empty, .numeric 1, .numeric 0, ValueMode.LIVE, .empty⟩⟩
      (by intro r hr; simp only [List.mem_singleton] at hr; rw [hr]; intro h; rfl),
   calibration_preserves_manual_invariant.2.2
      ⟨"RPM", .empty, .empty, .numeric 1, .numeric 0, ValueMode.MANUAL, .empty⟩
      ⟨"engine_rpm", none, "RPM", none, none, none, none, ValueMode.LIVE, none⟩
      rfl rfl⟩

/-- C10: the Dashboard's quality-badge lookup defaults to `LIVE`: for
every parameter name none of whose alias keys is present in the
published sources map, `getQuality` returns `LIVE` (not `BAD`, not an
absent badge). -/
theorem quality_badge_defaults_to_live :
    ∀ (sources : String → Option Quality) (p : String),
      (∀ k ∈ UI.aliasesFor p, sources k = none) →
      UI.getQuality sources p = Quality.LIVE := by
  have go : ∀ (sources : String → Option Quality) (l : List String),
      (∀ k ∈ l, sources k = none) → UI.lookupSources sources l = Quality.LIVE := by
    intro sources l
    induction l with
    | nil => intro _; rfl
    | cons k rest ih =>
      intro h
      have hk : sources k = none := h k (by simp)
      simp only [UI.lookupSources, hk]
      exact ih (fun k2 hk2 => h k2 (by simp [hk2]))
  intro sources p h
  exact go sources (UI.aliasesFor p) h

/-- C10 witness: with an empty sources map, the badge for
`"engine_rpm"` is `LIVE`. -/
theorem quality_badge_defaults_to_live_witness :
    UI.getQuality (fun _ => none) "engine_rpm" = Quality.LIVE :=
  quality_badge_defaults_to_live (fun _ => none) "engine_rpm"
    (fun _ _ => rfl)

/-- A definition picked by `pickReady` references only already-emitted
names. -/
theorem pickReady_refs (done : List String) :
    ∀ (l : List ParameterDef) (d : ParameterDef) (rest : List ParameterDef),
      pickReady done l = some (d, rest) →
      (refsOfChain d.chain).all (fun r => done.contains r) = true := by
  intro l
  induction l with
  | nil => intro d rest h; simp [pickReady] at h
  | cons x xs ih =>
    intro d rest h
    simp only [pickReady] at h
    by_cases hx : (refsOfChain x.chain).all (fun r => done.contains r) = true
    · rw [if_pos hx] at h
      cases h
      exact hx
    · rw [if_neg hx] at h
      cases hrec : pickReady done xs with
      | none => rw [hrec] at h; cases h
      | some pr =>
        obtain ⟨p, rest2⟩ := pr
        rw [hrec] at h
        cases h
        exact ih _ _ hrec

/-- A successful `topoLoop` run emits a topological evaluation order. -/
theorem topoLoop_topo :
    ∀ (fuel : Nat) (done : List String) (pending : List ParameterDef)
      (g : List ParameterDef),
      topoLoop fuel done pending = some g → isTopoOrderFrom done g = true := by
  intro fuel
  induction fuel with
  | zero =>
    intro done pending g h
    cases pending with
    | nil => cases h; rfl
    | cons p ps => simp [topoLoop] at h
  | succ n ih =>
    intro done pending g h
    simp only [topoLoop] at h
    cases pending with
    | nil => cases h; rfl
    | cons p ps =>
      cases hpick : pickReady done (p :: ps) with
      | none => simp only [hpick] at h; cases h
      | some dr =>
        obtain ⟨d, rest⟩ := dr
        simp only [hpick] at h
        cases hrec : topoLoop n (d.name :: done) rest with
        | none => simp only [hrec] at h; cases h
        | some g2 =>
          simp only [hrec, Option.some.injEq] at h
          subst h
          simp only [isTopoOrderFrom, Bool.and_eq_true]
          exact ⟨pickReady_refs done (p :: ps) d rest hpick,
            ih (d.name :: done) rest g2 hrec⟩

/-- A successful `topoLoop` run emits exactly the pending definitions, as
a permutation. -/
theorem pickReady_perm (done : List String) :
    ∀ (l : List ParameterDef) (d : ParameterDef) (rest : List ParameterDef),
      pickReady done l = some (d, rest) → l.Perm (d :: rest) := by
  intro l
  induction l with
  | nil => intro d rest h; simp [pickReady] at h
  | cons x xs ih =>
    intro d rest h
    simp only [pickReady] at h
    by_cases hx : (refsOfChain x.chain).all (fun r => done.contains r) = true
    · rw [if_pos hx] at h
      cases h
      exact List.Perm.refl _
    · rw [if_neg hx] at h
      cases hrec : pickReady done xs with
      | none => rw [hrec] at h; cases h
      | some pr =>
        obtain ⟨p, rest2⟩ := pr
        rw [hrec] at h
        cases h
        refine ((ih _ _ hrec).cons x).trans ?_
        exact List.Perm.swap _ _ _

/-- `topoLoop` returns a permutation of its pending input. -/
theorem topoLoop_perm :
    ∀ (fuel : Nat) (done : List String) (pending : List ParameterDef)
      (g : List ParameterDef),
      topoLoop fuel done pending = some g → pending.Perm g := by
  intro fuel
  induction fuel with
  | zero =>
    intro done pending g h
    cases pending with
    | nil => cases h; exact List.Perm.refl _
    | cons p ps => simp [topoLoop] at h
  | succ n ih =>
    intro done pending g h
    simp only [topoLoop] at h
    cases pending with
    | nil => cases h; exact List.Perm.refl _
    | cons p ps =>
      cases hpick : pickReady done (p :: ps) with
      | none => simp only [hpick] at h; cases h
      | some dr =>
        obtain ⟨d, rest⟩ := dr
        simp only [hpick] at h
        cases hrec : topoLoop n (d.name :: done) rest with
        | none => simp only [hrec] at h; cases h
        | some g2 =>
          simp only [hrec, Option.some.injEq] at h
          subst h
          exact (pickReady_perm done (p :: ps) d rest hpick).trans
            ((ih (d.name :: done) rest g2 hrec).cons d)

/-- When `firstUnknown` finds nothing, every reference of every
definition names a registry member. -/
theorem firstUnknown_none (names : List String) :
    ∀ (l : List ParameterDef), firstUnknown names l = none →
      ∀ d ∈ l, ∀ r ∈ refsOfChain d.chain, r ∈ names := by
  intro l
  induction l with
  | nil => intro _ d hd; cases hd
  | cons x xs ih =>
    intro h d hd r hr
    simp only [firstUnknown] at h
    cases hf : (refsOfChain x.chain).find? (fun r => !(names.contains r)) with
    | some r2 => simp only [hf] at h; cases h
    | none =>
      simp only [hf] at h
      rcases List.mem_cons.mp hd with h1 | h1
      · subst h1
        have := List.find?_eq_none.mp hf r hr
        simpa using this
      · exact ih h d h1 r hr

/-- In a topological order, each definition's references lie in `done` or
among the names of strictly earlier definitions. -/
theorem topo_refs_prefix :
    ∀ (pre : List ParameterDef) (done : List String) (d : ParameterDef)
      (suf : List ParameterDef),
      isTopoOrderFrom done (pre ++ d :: suf) = true →
      ∀ r ∈ refsOfChain d.chain,
        r ∈ done ∨ r ∈ pre.map (fun x => x.name) := by
  intro pre
  induction pre with
  | nil =>
    intro done d suf h r hr
    simp only [List.nil_append, isTopoOrderFrom, Bool.and_eq_true] at h
    left
    have h2 := List.all_eq_true.mp h.1 r hr
    simpa using h2
  | cons x pre ih =>
    intro done d suf h r hr
    simp only [List.cons_append, isTopoOrderFrom, Bool.and_eq_true] at h
    rcases ih (x.name :: done) d suf h.2 r hr with h1 | h1
    · rcases List.mem_cons.mp h1 with h2 | h2
      · right
        simp [h2]
      · left
        exact h2
    · right
      simp only [List.map_cons, List.mem_cons]
      exact Or.inr h1

/-- In a duplicate-free topological order, every reference-graph edge
points strictly backwards in the list. -/
theorem edge_indexOf_lt (g : List ParameterDef) (a b : String)
    (hnd : (g.map (fun d => d.name)).Nodup)
    (ht : isTopoOrderFrom [] g = true)
    (he : hasEdge g a b = true) :
    (g.map (fun d => d.name)).indexOf b < (g.map (fun d => d.name)).indexOf a := by
  rw [hasEdge, List.any_eq_true] at he
  obtain ⟨d, hd, hdp⟩ := he
  rw [Bool.and_eq_true, beq_iff_eq] at hdp
  obtain ⟨hname, hb⟩ := hdp
  have hbmem : b ∈ refsOfChain d.chain := by simpa using hb
  obtain ⟨pre, suf, rfl⟩ := List.append_of_mem hd
  have hpre := topo_refs_prefix pre [] d suf ht b hbmem
  rcases hpre with h | hbpre
  · cases h
  have hmap : (pre ++ d :: suf).map (fun x => x.name)
      = pre.map (fun x => x.name) ++ d.name :: suf.map (fun x => x.name) := by
    simp
  rw [hmap] at hnd ⊢
  subst hname
  have hanotin : d.name ∉ pre.map (fun x => x.name) := by
    intro hmem
    exact (List.nodup_append.mp hnd).2.2 hmem (List.mem_cons_self _ _)
  have hidxa : (pre.map (fun x => x.name)
        ++ d.name :: suf.map (fun x => x.name)).indexOf d.name
      = (pre.map (fun x => x.name)).length := by
    rw [List.indexOf_append_of_not_mem hanotin, List.indexOf_cons_self]
    omega
  have hidxb : (pre.map (fun x => x.name)
        ++ d.name :: suf.map (fun x => x.name)).indexOf b
      < (pre.map (fun x => x.name)).length := by
    rw [List.indexOf_append_of_mem hbpre]
    exact List.indexOf_lt_length.mpr hbpre
  rw [hidxa]
  exact hidxb

/-- Along any edge path of a duplicate-free topological order, the
endpoint sits strictly before the start. -/
theorem pathEdges_indexOf_lt (g : List ParameterDef)
    (hnd : (g.map (fun d => d.name)).Nodup)
    (ht : isTopoOrderFrom [] g = true) :
    ∀ (mid : List String) (a b : String), pathEdges g a mid b = true →
      (g.map (fun d => d.name)).indexOf b < (g.map (fun d => d.name)).indexOf a := by
  intro mid
  induction mid with
  | nil =>
    intro a b h
    exact edge_indexOf_lt g a b hnd ht h
  | cons x xs ih =>
    intro a b h
    rw [pathEdges, Bool.and_eq_true] at h
    exact Nat.lt_trans (ih x b h.2) (edge_indexOf_lt g a x hnd ht h.1)

/-- Edge paths transfer along permutations of the definition list. -/
theorem pathEdges_perm (defs g : List ParameterDef) (hp : defs.Perm g) :
    ∀ (mid : List String) (a b : String),
      pathEdges defs a mid b = true → pathEdges g a mid b = true := by
  have hedge : ∀ a b, hasEdge defs a b = true → hasEdge g a b = true := by
    intro a b h
    rw [hasEdge, List.any_eq_true] at h ⊢
    obtain ⟨d, hd, hdp⟩ := h
    exact ⟨d, hp.mem_iff.mp hd, hdp⟩
  intro mid
  induction mid with
  | nil =>
    intro a b h
    exact hedge a b h
  | cons x xs ih =>
    intro a b h
    rw [pathEdges, Bool.and_eq_true] at h
    rw [pathEdges, Bool.and_eq_true]
    exact ⟨hedge a x h.1, ih x b h.2⟩

/-- C6: for every generation whose names are unique keys, a cycle in the
calculated-parameter reference graph, or a reference to an unknown
parameter, makes `Load` fail with a `ConfigurationError` while the
previously active generation stays active (atomic swap-or-reject); and
every generation a successful `Load` accepts comes back as a permutation
of the submitted definitions in topological evaluation order, so its
reference graph is acyclic. -/
theorem load_rejects_cycles :
    (∀ (defs : List ParameterDef) (a : String) (mid : List String),
       (defs.map (fun d => d.name)).Nodup → isCycle defs a mid = true →
       ∃ e, Load defs = .error e
         ∧ ∀ active, loadIntoRegistry active defs = (active, some e))
    ∧ (∀ (defs : List ParameterDef) (d : ParameterDef) (r : String),
       d ∈ defs → r ∈ refsOfChain d.chain →
       r ∉ defs.map (fun d2 => d2.name) →
       ∃ e, Load defs = .error e
         ∧ ∀ active, loadIntoRegistry active defs = (active, some e))
    ∧ (∀ (defs g : List ParameterDef), Load defs = .ok g →
       defs.Perm g ∧ isTopoOrder g = true)
    ∧ (∀ active : List ParameterDef,
       loadIntoRegistry active [defA, defB]
         = (active, some (ConfigurationError.cycle ["A", "B"]))) := by
  have hok : ∀ (defs g : List ParameterDef), Load defs = .ok g →
      defs.Perm g ∧ isTopoOrder g = true := by
    intro defs g h
    simp only [Load] at h
    cases hu : firstUnknown (defs.map (fun d => d.name)) defs with
    | some pr =>
      obtain ⟨p, r⟩ := pr
      simp only [hu] at h
      cases h
    | none =>
      simp only [hu] at h
      cases ht : topoLoop defs.length [] defs with
      | none => simp only [ht] at h; cases h
      | some g2 =>
        simp only [ht, Except.ok.injEq] at h
        subst h
        exact ⟨topoLoop_perm defs.length [] defs g2 ht,
          topoLoop_topo defs.length [] defs g2 ht⟩
  refine ⟨?_, ?_, hok, ?_⟩
  · intro defs a mid hnd hcyc
    cases hL : Load defs with
    | ok g =>
      exfalso
      obtain ⟨hperm, htopo⟩ := hok defs g hL
      have hnd2 : (g.map (fun d => d.name)).Nodup := (hperm.map _).nodup hnd
      have hcyc2 : pathEdges g a mid a = true :=
        pathEdges_perm defs g hperm mid a a hcyc
      exact Nat.lt_irrefl _ (pathEdges_indexOf_lt g hnd2 htopo mid a a hcyc2)
    | error e =>
      refine ⟨e, rfl, ?_⟩
      intro active
      simp [loadIntoRegistry, hL]
  · intro defs d r hd hr hnotin
    cases hu : firstUnknown (defs.map (fun d2 => d2.name)) defs with
    | none =>
      exact absurd
        (firstUnknown_none (defs.map (fun d2 => d2.name)) defs hu d hd r hr)
        hnotin
    | some pr =>
      obtain ⟨p, rr⟩ := pr
      have hL : Load defs = .error (.unknownReference p rr) := by
        simp [Load, hu]
      refine ⟨_, hL, ?_⟩
      intro active
      simp [loadIntoRegistry, hL]
  · intro active
    have hload : Load [defA, defB] = .error (ConfigurationError.cycle ["A", "B"]) := by
      rfl
    simp [loadIntoRegistry, hload]

/-- C6 witness: the cyclic pair `A = B + 1, B = A * 2` is rejected and
preserves any active generation; a dangling reference (`C = Z` with `Z`
undefined) is rejected the same way; `Load` accepts the acyclic
`goodDefs` as a topologically ordered permutation of itself; and loading
the cyclic pair on top of `goodDefs` leaves `goodDefs` active. -/
theorem load_rejects_cycles_witness :
    (∃ e, Load [defA, defB] = .error e
      ∧ ∀ active, loadIntoRegistry active [defA, defB] = (active, some e))
    ∧ (∃ e, Load [⟨"C", [.calculated (.ident "Z")]⟩] = .error e
      ∧ ∀ active, loadIntoRegistry active [⟨"C", [.calculated (.ident "Z")]⟩]
          = (active, some e))
    ∧ (goodDefs.Perm goodDefs ∧ isTopoOrder goodDefs = true)
    ∧ loadIntoRegistry goodDefs [defA, defB]
      = (goodDefs, some (ConfigurationError.cycle ["A", "B"])) :=
  ⟨load_rejects_cycles.1 [defA, defB] "A" ["B"] (by decide) (by decide),
   load_rejects_cycles.2.1 [⟨"C", [.calculated (.ident "Z")]⟩]
     ⟨"C", [.calculated (.ident "Z")]⟩ "Z" (by decide) (by decide) (by decide),
   load_rejects_cycles.2.2.1 goodDefs goodDefs (by rfl),
   load_rejects_cycles.2.2.2 goodDefs⟩
